import Mathlib

/-!
Drop-target resolution and drag sessions (berryDragUtil.cpp) and the
filled-contour copy (mitkContourModelUtils.cpp).

A shallow embedding of `berry::DragUtil` and of
`mitk::ContourModelUtils::ItkCopyFilledContourToSlice`.

Conventions of the embedding.
* A widget handle (`void*`) is a natural number, `0` being the null pointer.
* A listener (`IDragOverListener*`) is a natural number (pointer identity).
* The toolkit (`GuiWidgetsTweaklet`) and the virtual methods of listeners and
  drop targets are fields of `Env`; listeners may read and change an arbitrary
  world of type `σ`.
* Every call the code makes on a collaborator (listener, tracker, drop target)
  is appended to `State.trace`, so that "is called", "is called once" and
  "is called before" are statements about that list.
* A parent walk takes a `fuel` bounding the number of non-null widgets it may
  visit; `none` means the fuel ran out.
* `QRect` follows Qt: corner coordinates, `width = x2 - x1 + 1`; coordinates
  are unbounded integers (signed overflow is undefined in the source).
-/

namespace berry

/-- Widget handle, the `void*` of the source; `0` is the null pointer. -/
abbrev Control := Nat

/-- Listener handle, the `IDragOverListener*` of the source. -/
abbrev Listener := Nat

/-- Dragged payload, the `Object::Pointer` of the source (identity only). -/
abbrev DraggedObject := Nat

/-- Cursor glyph selector. -/
abbrev CursorType := Nat

/-- Modelled from the spec: the "invalid" cursor glyph; the enumerator
`CURSOR_INVALID` is declared in a header of the toolkit layer, and only its
identity matters here. -/
def CURSOR_INVALID : CursorType := 0

/-- Qt point. -/
structure QPoint where
  x : Int
  y : Int
deriving DecidableEq, Repr

/-- Qt rectangle: left/top and right/bottom corner, both inclusive. -/
structure QRect where
  x1 : Int
  y1 : Int
  x2 : Int
  y2 : Int
deriving DecidableEq, Repr

namespace QRect

/-- The default-constructed rectangle `QRect()`. -/
def null : QRect := ⟨0, 0, -1, -1⟩

/-- The constructor `QRect(x, y, width, height)`. -/
def ofXYWH (x y w h : Int) : QRect := ⟨x, y, x + w - 1, y + h - 1⟩

/-- Accessor `QRect::x()`. -/
def x (r : QRect) : Int := r.x1

/-- Accessor `QRect::y()`. -/
def y (r : QRect) : Int := r.y1

/-- Accessor `QRect::width()`. -/
def width (r : QRect) : Int := r.x2 - r.x1 + 1

/-- Accessor `QRect::height()`. -/
def height (r : QRect) : Int := r.y2 - r.y1 + 1

end QRect

/-- A non-null `IDropTarget`: its identity and what `GetSnapRectangle()` and
`GetCursor()` return. -/
structure DropTarget where
  id : Nat
  snapRectangle : QRect
  cursor : CursorType
deriving DecidableEq, Repr

/-- One call made on a collaborator. -/
inductive Event where
  | Drag (listener : Listener) (control : Control) (obj : DraggedObject)
      (position : QPoint) (rect : QRect) (result : Option DropTarget)
  | AddControlListener
  | SetCursor (c : CursorType)
  | SetRectangle (r : QRect)
  | Open
  | Drop (t : DropTarget)
  | DragFinished (t : DropTarget) (dropped : Bool)
deriving DecidableEq, Repr

/-- Calls on a listener. -/
def Event.isDrag : Event → Bool
  | .Drag _ _ _ _ _ _ => true
  | _ => false

/-- Calls on the tracker. -/
def Event.isTrackerCall : Event → Bool
  | .AddControlListener => true
  | .SetCursor _ => true
  | .SetRectangle _ => true
  | .Open => true
  | _ => false

/-- Calls of `SetRectangle` on the tracker. -/
def Event.isSetRectangle : Event → Bool
  | .SetRectangle _ => true
  | _ => false

/-- Calls on a drop target that end a drag: `Drop` and `DragFinished`. -/
def Event.isOutcome : Event → Bool
  | .Drop _ => true
  | .DragFinished _ _ => true
  | _ => false

/-- The toolkit queries (`GuiWidgetsTweaklet`) and the virtual methods of
listeners and drop targets the code calls, as parameters. -/
structure Env (σ : Type) where
  GetParent : Control → Control
  FindControl : List Control → QPoint → Control
  Drag : Listener → Control → DraggedObject → QPoint → QRect → σ → Option DropTarget × σ
  Drop : DropTarget → σ → σ
  DragFinished : DropTarget → Bool → σ → σ

/-- What a run can change: the world the listeners see, the rectangle of the
tracker of the running session, and the calls made so far. -/
structure State (σ : Type) where
  world : σ
  rectangle : QRect
  trace : List Event

/-- The widget data stored under `DROP_TARGET_ID` (seen through the cast of
`GetTargetList`) and the static `defaultTargets`. -/
structure Registry where
  data : Control → Option (List Listener)
  defaultTargets : List Listener

/-- The value of `TestDropLocation`: `GetLocation()` and `GetShells()`. -/
structure TestDropLocation where
  location : QPoint
  shells : List Control

namespace DragUtil

/-- The registry before any registration. -/
def emptyRegistry : Registry := ⟨fun _ => none, []⟩

/-- Embedding of `DragUtil::GetTargetList`. -/
def GetTargetList (reg : Registry) (control : Control) : Option (List Listener) :=
  reg.data control

/-- Embedding of `DragUtil::AddDragTarget`. -/
def AddDragTarget (reg : Registry) (control : Control) (target : Listener) : Registry :=
  if control = 0 then
    { reg with defaultTargets := reg.defaultTargets ++ [target] }
  else
    match GetTargetList reg control with
    | none => { reg with data := Function.update reg.data control (some ([] ++ [target])) }
    | some targetList =>
      { reg with data := Function.update reg.data control (some (targetList ++ [target])) }

/-- Embedding of `DragUtil::RemoveDragTarget`; `removeAll` drops every occurrence. -/
def RemoveDragTarget (reg : Registry) (control : Control) (target : Listener) : Registry :=
  if control = 0 then
    { reg with defaultTargets := reg.defaultTargets.filter (fun l => l ≠ target) }
  else
    match GetTargetList reg control with
    | none => reg
    | some targetList =>
      let remaining := targetList.filter (fun l => l ≠ target)
      if remaining.isEmpty then
        { reg with data := Function.update reg.data control none }
      else
        { reg with data := Function.update reg.data control (some remaining) }

/-- A registration call. -/
inductive RegistryOp where
  | add (control : Control) (target : Listener)
  | remove (control : Control) (target : Listener)
deriving DecidableEq, Repr

/-- Run one registration call. -/
def applyOp (reg : Registry) : RegistryOp → Registry
  | .add c t => AddDragTarget reg c t
  | .remove c t => RemoveDragTarget reg c t

/-- Run a sequence of registration calls, first call first. -/
def applyOps (reg : Registry) (ops : List RegistryOp) : Registry :=
  ops.foldl applyOp reg

/-- Record the call of `next->Drag(...)` and its effect on the world. -/
def callDrag {σ : Type} (env : Env σ) (next : Listener) (control : Control)
    (obj : DraggedObject) (position : QPoint) (rect : QRect) (s : State σ) :
    Option DropTarget × State σ :=
  let res := env.Drag next control obj position rect s.world
  (res.1, { s with world := res.2,
                   trace := s.trace ++ [Event.Drag next control obj position rect res.1] })

/-- Embedding of the list overload of `DragUtil::GetDropTarget`. -/
def GetDropTargetFromList {σ : Type} (env : Env σ) :
    List Listener → Control → DraggedObject → QPoint → QRect → State σ →
      Option DropTarget × State σ
  | [], _, _, _, _, s => (none, s)
  | next :: rest, control, obj, position, rect, s =>
    match callDrag env next control obj position rect s with
    | (some dropTarget, s1) => (some dropTarget, s1)
    | (none, s1) => GetDropTargetFromList env rest control obj position rect s1

/-- The parent walk of the widget overload of `DragUtil::GetDropTarget`. -/
def GetDropTargetLoop {σ : Type} (env : Env σ) (reg : Registry) (toSearch : Control)
    (obj : DraggedObject) (position : QPoint) (rect : QRect) :
    Nat → Control → State σ → Option (Option DropTarget × State σ)
  | 0, current, s =>
    if current = 0 then
      some (GetDropTargetFromList env reg.defaultTargets toSearch obj position rect s)
    else none
  | fuel + 1, current, s =>
    if current = 0 then
      some (GetDropTargetFromList env reg.defaultTargets toSearch obj position rect s)
    else
      let targets := (GetTargetList reg current).getD []
      match GetDropTargetFromList env targets toSearch obj position rect s with
      | (some dropTarget, s1) => some (some dropTarget, s1)
      | (none, s1) =>
        GetDropTargetLoop env reg toSearch obj position rect fuel (env.GetParent current) s1

/-- Embedding of the widget overload of `DragUtil::GetDropTarget`. -/
def GetDropTarget {σ : Type} (env : Env σ) (reg : Registry) (fuel : Nat) (toSearch : Control)
    (obj : DraggedObject) (position : QPoint) (rect : QRect) (s : State σ) :
    Option (Option DropTarget × State σ) :=
  GetDropTargetLoop env reg toSearch obj position rect fuel toSearch s

/-- Modelled from the spec: `QtTracker::SetCursor` sets the displayed cursor
glyph; the call is recorded. -/
def trackerSetCursor {σ : Type} (c : CursorType) (s : State σ) : State σ :=
  { s with trace := s.trace ++ [Event.SetCursor c] }

/-- Modelled from the spec: `QtTracker::SetRectangle` stores the tracked
rectangle, which `GetRectangle` reads back as `State.rectangle`; the call is
recorded. -/
def trackerSetRectangle {σ : Type} (r : QRect) (s : State σ) : State σ :=
  { s with rectangle := r, trace := s.trace ++ [Event.SetRectangle r] }

/-- The members of `DragUtil::TrackerMoveListener`. -/
structure TrackerMoveListener where
  allowSnapping : Bool
  draggedItem : DraggedObject
  sourceBounds : QRect
  initialLocation : QPoint

/-- The fields of `GuiTk::ControlEvent` the listener reads (`item` is the tracker,
held in the state). -/
structure ControlEvent where
  x : Int
  y : Int
deriving DecidableEq, Repr

/-- The local `snapTarget` of `ControlMoved` after the branch on `target`
(source lines 69-79). -/
def snapTargetOf (target : Option DropTarget) : QRect :=
  match target with
  | some t => t.snapRectangle
  | none => QRect.null

/-- The local `snapTarget` of `ControlMoved` after the fallback test
(source lines 84-89): the rectangle compared with, and set on, the tracker. -/
def snapFallback (self : TrackerMoveListener) (location : QPoint) (snapTarget : QRect) : QRect :=
  if snapTarget.width < 0 ∨ snapTarget.height < 0 then
    QRect.ofXYWH (self.sourceBounds.x + location.x - self.initialLocation.x)
      (self.sourceBounds.y + location.y - self.initialLocation.y)
      self.sourceBounds.width self.sourceBounds.height
  else snapTarget

/-- The feedback part of `ControlMoved` (source lines 68-99), run once the drop
target of the event is known. -/
def moveFeedback {σ : Type} (self : TrackerMoveListener) (location : QPoint)
    (target : Option DropTarget) (s : State σ) : State σ :=
  let s1 :=
    match target with
    | some t => trackerSetCursor t.cursor s
    | none => trackerSetCursor CURSOR_INVALID s
  if self.allowSnapping then
    let snapTarget := snapFallback self location (snapTargetOf target)
    let currentRectangle := s1.rectangle
    if ¬ (currentRectangle = snapTarget) then trackerSetRectangle snapTarget s1 else s1
  else s1

/-- Embedding of `DragUtil::TrackerMoveListener::ControlMoved`; `targetControl`
is what `GetCursorControl()` returns during the event. -/
def ControlMoved {σ : Type} (env : Env σ) (reg : Registry) (fuel : Nat)
    (self : TrackerMoveListener) (event : ControlEvent) (targetControl : Control)
    (s : State σ) : Option (State σ) :=
  let location : QPoint := ⟨event.x, event.y⟩
  match GetDropTarget env reg fuel targetControl self.draggedItem location s.rectangle s with
  | none => none
  | some (target, s1) => some (moveFeedback self location target s1)

/-- One round of the modal loop of `QtTracker::Open`: the rectangle the tracker
moved itself to before firing the event (if it did), the event, and the widget
under the cursor at that time. -/
structure MoveStep where
  rectangle : Option QRect
  event : ControlEvent
  cursorControl : Control

/-- What the toolkit reports during one interactive session. -/
structure SessionInput where
  /-- Rectangle of the freshly constructed tracker. -/
  trackerRectangle : QRect
  /-- Widget under the cursor when the drag starts (source line 245). -/
  startControl : Control
  /-- The move events fired while `tracker.Open()` runs. -/
  moves : List MoveStep
  /-- Result of `tracker.Open()`: `false` when the user cancelled. -/
  trackingOk : Bool
  /-- Cursor location after tracking (source line 299). -/
  finalLocation : QPoint
  /-- Widget under the cursor after tracking (source line 301). -/
  targetControl : Control

/-- Modelled from the spec: the modal loop of `QtTracker::Open`, which on every
pointer move fires `ControlMoved` on the registered listener; the rounds are
those of the session input. -/
def trackerOpen {σ : Type} (env : Env σ) (reg : Registry) (fuel : Nat)
    (listener : TrackerMoveListener) : List MoveStep → State σ → Option (State σ)
  | [], s => some s
  | m :: ms, s =>
    match ControlMoved env reg fuel listener m.event m.cursorControl
        { s with rectangle := m.rectangle.getD s.rectangle } with
    | none => none
    | some s1 => trackerOpen env reg fuel listener ms s1

/-- The interactive part of `DragToTarget` up to the return of `tracker.Open()`
(source lines 231-285). -/
def trackingPhase {σ : Type} (env : Env σ) (reg : Registry) (fuel : Nat) (input : SessionInput)
    (draggedItem : DraggedObject) (sourceBounds : QRect) (initialLocation : QPoint)
    (allowSnapping : Bool) (s : State σ) : Option (State σ) :=
  let trackerListener : TrackerMoveListener :=
    ⟨allowSnapping, draggedItem, sourceBounds, initialLocation⟩
  let s0 : State σ :=
    { s with rectangle := input.trackerRectangle, trace := s.trace ++ [Event.AddControlListener] }
  let startControl := input.startControl
  let initial :=
    if startControl ≠ 0 ∧ allowSnapping = true then
      GetDropTarget env reg fuel startControl draggedItem initialLocation sourceBounds s0
    else some (none, s0)
  match initial with
  | none => none
  | some (target, s1) =>
    let startRect :=
      match target with
      | some t =>
        if t.snapRectangle.width ≠ 0 ∧ t.snapRectangle.height ≠ 0 then t.snapRectangle
        else sourceBounds
      | none => sourceBounds
    let s2 :=
      match target with
      | some t => trackerSetCursor t.cursor s1
      | none => s1
    let s3 :=
      if startRect.width ≠ 0 ∧ startRect.height ≠ 0 then trackerSetRectangle startRect s2
      else s2
    trackerOpen env reg fuel trackerListener input.moves
      { s3 with trace := s3.trace ++ [Event.Open] }

/-- The call `dropTarget->DragFinished(dropped)`. -/
def callDragFinished {σ : Type} (env : Env σ) (t : DropTarget) (dropped : Bool)
    (s : State σ) : State σ :=
  { s with world := env.DragFinished t dropped s.world,
           trace := s.trace ++ [Event.DragFinished t dropped] }

/-- The call `target->Drop()`. -/
def callDrop {σ : Type} (env : Env σ) (t : DropTarget) (s : State σ) : State σ :=
  { s with world := env.Drop t s.world, trace := s.trace ++ [Event.Drop t] }

/-- Embedding of `DragUtil::DragToTarget`; `forced` is the static
`forcedDropTarget`. -/
def DragToTarget {σ : Type} (env : Env σ) (reg : Registry) (forced : Option TestDropLocation)
    (fuel : Nat) (input : SessionInput) (draggedItem : DraggedObject) (sourceBounds : QRect)
    (initialLocation : QPoint) (allowSnapping : Bool) (s : State σ) :
    Option (Option DropTarget × State σ) :=
  match forced with
  | some forcedDropTarget =>
    let location := forcedDropTarget.location
    let currentControl := env.FindControl forcedDropTarget.shells location
    GetDropTarget env reg fuel currentControl draggedItem location sourceBounds s
  | none =>
    match trackingPhase env reg fuel input draggedItem sourceBounds initialLocation
        allowSnapping s with
    | none => none
    | some s4 =>
      match GetDropTarget env reg fuel input.targetControl draggedItem input.finalLocation
          s4.rectangle s4 with
      | none => none
      | some (dropTarget, s5) =>
        if input.trackingOk then some (dropTarget, s5)
        else
          match dropTarget with
          | some t => some (none, callDragFinished env t false s5)
          | none => some (none, s5)

/-- Embedding of `DragUtil::PerformDrag`. -/
def PerformDrag {σ : Type} (env : Env σ) (reg : Registry) (forced : Option TestDropLocation)
    (fuel : Nat) (input : SessionInput) (draggedItem : DraggedObject) (sourceBounds : QRect)
    (initialLocation : QPoint) (allowSnapping : Bool) (s : State σ) :
    Option (Bool × State σ) :=
  match DragToTarget env reg forced fuel input draggedItem sourceBounds initialLocation
      allowSnapping s with
  | none => none
  | some (none, s1) => some (false, s1)
  | some (some target, s1) => some (true, callDragFinished env target true (callDrop env target s1))

/-- The non-null widgets visited from `c` by following `GetParent` up to the
root, nearest first. -/
def ParentChain (GetParent : Control → Control) : Control → List Control → Prop
  | c, [] => c = 0
  | c, a :: rest => c ≠ 0 ∧ a = c ∧ ParentChain GetParent (GetParent c) rest

/-- Whether a list is the parent chain of a widget can be computed. -/
instance ParentChain.instDecidable (GetParent : Control → Control) :
    (c : Control) → (chain : List Control) → Decidable (ParentChain GetParent c chain)
  | c, [] => inferInstanceAs (Decidable (c = 0))
  | c, a :: rest =>
    have := ParentChain.instDecidable GetParent (GetParent c) rest
    inferInstanceAs (Decidable (c ≠ 0 ∧ a = c ∧ ParentChain GetParent (GetParent c) rest))

/-- The target list the parent walk uses at widget `a` (empty when none is attached). -/
def targetsAt (reg : Registry) (a : Control) : List Listener :=
  (GetTargetList reg a).getD []

/-- The walk from `c` along `GetParent` meets the null handle after visiting at
most `n` non-null widgets. -/
def reaches (GetParent : Control → Control) : Nat → Control → Prop
  | 0, c => c = 0
  | n + 1, c => c = 0 ∨ reaches GetParent n (GetParent c)

/-- Whether a walk ends within a bound can be computed. -/
instance reaches.instDecidable (GetParent : Control → Control) :
    (n : Nat) → (c : Control) → Decidable (reaches GetParent n c)
  | 0, c => inferInstanceAs (Decidable (c = 0))
  | n + 1, c =>
    have := reaches.instDecidable GetParent n (GetParent c)
    inferInstanceAs (Decidable (c = 0 ∨ reaches GetParent n (GetParent c)))

/-- Every widget has fewer than `fuel + 1` non-null ancestors (itself included):
the hierarchy is acyclic and at most `fuel` deep. -/
def HeightBounded {σ : Type} (env : Env σ) (fuel : Nat) : Prop :=
  ∀ c, reaches env.GetParent fuel c

/-- A three-level hierarchy: widget 3 (self), its parent 2, its grandparent 1. -/
def demoParent (c : Control) : Control :=
  if c = 3 then 2 else if c = 2 then 1 else 0

/-- A toolkit over that hierarchy with stateless listeners: listener 10 rejects
every drag, listener 15 returns a target with a degenerate snap rectangle, every
other listener accepts with a target carrying its own number. -/
def demoEnv : Env Unit where
  GetParent := demoParent
  FindControl := fun shells _ => shells.headD 0
  Drag := fun l _ _ _ _ w =>
    (if l = 10 then none
     else if l = 15 then some ⟨15, QRect.ofXYWH 5 5 0 0, 2⟩
     else some ⟨l, QRect.ofXYWH 10 20 30 40, 1⟩, w)
  Drop := fun _ w => w
  DragFinished := fun _ _ w => w

/-- Listeners 10 and 11 on widget 3, 12 on widget 2, 13 on widget 1, 14 global. -/
def demoRegistry : Registry :=
  applyOps emptyRegistry
    [.add 3 10, .add 3 11, .add 2 12, .add 1 13, .add 0 14]

/-- A starting state with an empty trace. -/
def demoState : State Unit := ⟨(), QRect.ofXYWH 0 0 100 50, []⟩

/-- The target listener 11 returns. -/
def demoTarget : DropTarget := ⟨11, QRect.ofXYWH 10 20 30 40, 1⟩

/-- A session over widget 3: one move at (4, 5), then a normal release there. -/
def releaseInput : SessionInput where
  trackerRectangle := QRect.ofXYWH 0 0 100 50
  startControl := 3
  moves := [⟨none, ⟨4, 5⟩, 3⟩]
  trackingOk := true
  finalLocation := ⟨4, 5⟩
  targetControl := 3

/-- The same session ended by the user cancelling while still over widget 3. -/
def cancelInput : SessionInput := { releaseInput with trackingOk := false }

/-- A session in which a move over widget 3 resolves a target, after which the
cursor leaves every widget and the user cancels. -/
def cancelAwayInput : SessionInput :=
  { releaseInput with trackingOk := false, finalLocation := ⟨900, 900⟩, targetControl := 0 }

/-- Listeners 10 and 11 on widget 3 and only the rejecting listener 10 global. -/
def cancelRegistry : Registry :=
  applyOps emptyRegistry [.add 3 10, .add 3 11, .add 0 10]

/-- A forced drop location at (4, 5) searching the window 3. -/
def demoForced : TestDropLocation := ⟨⟨4, 5⟩, [3]⟩

/-- Only listener 15, whose target has a snap rectangle of width and height 0,
on widget 3. -/
def zeroSnapRegistry : Registry :=
  applyOps emptyRegistry [.add 3 15]

/-- A snapping move listener: source rectangle 100 by 50 at (0, 0), drag started
at (1, 1). -/
def demoListener : TrackerMoveListener := ⟨true, 7, QRect.ofXYWH 0 0 100 50, ⟨1, 1⟩⟩

/-- The source rectangle translated by the cursor's displacement from the
initial location, size unchanged (the fallback preview the specification
describes). -/
def translatedSource (self : TrackerMoveListener) (location : QPoint) : QRect :=
  QRect.ofXYWH (self.sourceBounds.x + (location.x - self.initialLocation.x))
    (self.sourceBounds.y + (location.y - self.initialLocation.y))
    self.sourceBounds.width self.sourceBounds.height

end DragUtil

end berry

namespace mitk

namespace ContourModelUtils

/-- Embedding of `ContourModelUtils::ItkCopyFilledContourToSlice` on the pixel
buffers in iteration order: `original` is `originalSlice`, `filled` is
`filledContourSliceITK` (the contour slice after `CastToItkImage`), and
`conv` is the conversion of the `int` overwrite value to the pixel type. The
result is the pair of buffers afterwards; `none` when the input iterator is
read past its end. -/
def ItkCopyFilledContourToSlice {P : Type} [DecidableEq P] [Zero P] (conv : Int → P) :
    List P → List P → Int → Option (List P × List P)
  | [], filled, _ => some ([], filled)
  | _ :: _, [], _ => none
  | o :: os, f :: fs, overwritevalue =>
    match ItkCopyFilledContourToSlice conv os fs overwritevalue with
    | none => none
    | some (os1, fs1) =>
      some ((if f ≠ 0 then conv overwritevalue else o) :: os1, f :: fs1)

/-- Conversion of an `int` to `unsigned char`. -/
def toUnsignedChar (v : Int) : Nat := (v % 256).toNat

end ContourModelUtils

end mitk

/-! Lemmas on the list overload and on the parent walk. -/

namespace berry

namespace DragUtil

variable {σ : Type}

theorem fromList_append (env : Env σ) (xs ys : List Listener) (c : Control)
    (o : DraggedObject) (p : QPoint) (r : QRect) (s : State σ) :
    GetDropTargetFromList env (xs ++ ys) c o p r s =
      match GetDropTargetFromList env xs c o p r s with
      | (some t, s1) => (some t, s1)
      | (none, s1) => GetDropTargetFromList env ys c o p r s1 := by
  induction xs generalizing s with
  | nil => simp [GetDropTargetFromList]
  | cons x xs ih =>
    simp only [List.cons_append, GetDropTargetFromList]
    rcases h : callDrag env x c o p r s with ⟨_ | t, s1⟩
    · simp [ih]
    · simp

theorem fromList_calls (env : Env σ) (ls : List Listener) (c : Control)
    (o : DraggedObject) (p : QPoint) (r : QRect) (s : State σ) :
    (∃ pre l post t, ls = pre ++ l :: post ∧
        (GetDropTargetFromList env ls c o p r s).1 = some t ∧
        (GetDropTargetFromList env ls c o p r s).2.trace =
          s.trace ++ pre.map (fun x => Event.Drag x c o p r none)
            ++ [Event.Drag l c o p r (some t)]) ∨
      ((GetDropTargetFromList env ls c o p r s).1 = none ∧
        (GetDropTargetFromList env ls c o p r s).2.trace =
          s.trace ++ ls.map (fun x => Event.Drag x c o p r none)) := by
  induction ls generalizing s with
  | nil => right; simp [GetDropTargetFromList]
  | cons x xs ih =>
    rcases h : env.Drag x c o p r s.world with ⟨_ | t, w⟩
    · have hc : callDrag env x c o p r s =
          (none, { s with world := w, trace := s.trace ++ [Event.Drag x c o p r none] }) := by
        simp [callDrag, h]
      rcases ih { s with world := w, trace := s.trace ++ [Event.Drag x c o p r none] } with
        ⟨pre, l, post, t, hls, hr, htr⟩ | ⟨hr, htr⟩
      · left
        refine ⟨x :: pre, l, post, t, by simp [hls], ?_, ?_⟩
        · simp only [GetDropTargetFromList, hc]; exact hr
        · simp only [GetDropTargetFromList, hc]; rw [htr]; simp
      · right
        refine ⟨?_, ?_⟩
        · simp only [GetDropTargetFromList, hc]; exact hr
        · simp only [GetDropTargetFromList, hc]; rw [htr]; simp
    · left
      refine ⟨[], x, xs, t, rfl, ?_, ?_⟩ <;> simp [GetDropTargetFromList, callDrag, h]

theorem fromList_findSome (env : Env σ) (ls : List Listener) (c : Control)
    (o : DraggedObject) (p : QPoint) (r : QRect) (d : Listener → Option DropTarget)
    (hd : ∀ l w, (env.Drag l c o p r w).1 = d l) (s : State σ) :
    (GetDropTargetFromList env ls c o p r s).1 = ls.findSome? d := by
  induction ls generalizing s with
  | nil => simp [GetDropTargetFromList]
  | cons x xs ih =>
    have hx := hd x s.world
    rcases h : env.Drag x c o p r s.world with ⟨_ | t, w⟩
    · rw [h] at hx
      simp only [GetDropTargetFromList, callDrag, h, List.findSome?_cons, ← hx]
      exact ih _
    · rw [h] at hx
      simp only [GetDropTargetFromList, callDrag, h, List.findSome?_cons, ← hx]

theorem fromList_frame (env : Env σ) (q : Event → Bool)
    (hq : ∀ l c o p r res, q (Event.Drag l c o p r res) = false)
    (ls : List Listener) (c : Control) (o : DraggedObject) (p : QPoint) (r : QRect)
    (s : State σ) :
    (GetDropTargetFromList env ls c o p r s).2.rectangle = s.rectangle ∧
      (GetDropTargetFromList env ls c o p r s).2.trace.filter q = s.trace.filter q := by
  induction ls generalizing s with
  | nil => simp [GetDropTargetFromList]
  | cons x xs ih =>
    rcases h : env.Drag x c o p r s.world with ⟨_ | t, w⟩
    · have := ih { s with world := w, trace := s.trace ++ [Event.Drag x c o p r none] }
      simp only [GetDropTargetFromList, callDrag, h]
      simpa [List.filter_append, hq] using this
    · simp [GetDropTargetFromList, callDrag, h, List.filter_append, hq]

theorem loop_flatten (env : Env σ) (reg : Registry) (toSearch : Control) (o : DraggedObject)
    (p : QPoint) (r : QRect) (chain : List Control) (fuel : Nat) (current : Control)
    (s : State σ) (hc : ParentChain env.GetParent current chain) (hf : chain.length ≤ fuel) :
    GetDropTargetLoop env reg toSearch o p r fuel current s =
      some (GetDropTargetFromList env (chain.flatMap (targetsAt reg) ++ reg.defaultTargets)
        toSearch o p r s) := by
  induction chain generalizing fuel current s with
  | nil =>
    have h0 : current = 0 := hc
    cases fuel <;> simp [GetDropTargetLoop, h0]
  | cons a rest ih =>
    obtain ⟨hne, ha, hrest⟩ := hc
    cases fuel with
    | zero => simp at hf
    | succ n =>
      have hn : rest.length ≤ n := by simpa using hf
      subst ha
      simp only [GetDropTargetLoop, hne, if_false, List.flatMap_cons, List.append_assoc]
      rw [fromList_append]
      rcases h : GetDropTargetFromList env ((GetTargetList reg a).getD []) toSearch o p r s with
        ⟨_ | t, s1⟩
      · simp only [targetsAt, h]
        exact ih n _ s1 hrest hn
      · simp only [targetsAt, h]

theorem loop_frame (env : Env σ) (reg : Registry) (toSearch : Control) (o : DraggedObject)
    (p : QPoint) (r : QRect) (q : Event → Bool)
    (hq : ∀ l c o p r res, q (Event.Drag l c o p r res) = false)
    (fuel : Nat) (current : Control) (s : State σ) (out : Option DropTarget × State σ)
    (h : GetDropTargetLoop env reg toSearch o p r fuel current s = some out) :
    out.2.rectangle = s.rectangle ∧ out.2.trace.filter q = s.trace.filter q := by
  induction fuel generalizing current s with
  | zero =>
    by_cases h0 : current = 0
    · simp only [GetDropTargetLoop, h0, if_true, Option.some.injEq] at h
      rw [← h]
      exact fromList_frame env q hq _ _ _ _ _ _
    · simp [GetDropTargetLoop, h0] at h
  | succ n ih =>
    by_cases h0 : current = 0
    · simp only [GetDropTargetLoop, h0, if_true, Option.some.injEq] at h
      rw [← h]
      exact fromList_frame env q hq _ _ _ _ _ _
    · simp only [GetDropTargetLoop, h0, if_false] at h
      have hf := fromList_frame env q hq ((GetTargetList reg current).getD []) toSearch o p r s
      rcases hl : GetDropTargetFromList env ((GetTargetList reg current).getD []) toSearch o p r s
        with ⟨_ | t, s1⟩
      · rw [hl] at h hf
        have := ih _ _ h
        exact ⟨this.1.trans hf.1, this.2.trans hf.2⟩
      · rw [hl] at h hf
        simp only [Option.some.injEq] at h
        rw [← h]
        exact hf

theorem loop_total (env : Env σ) (reg : Registry) (toSearch : Control) (o : DraggedObject)
    (p : QPoint) (r : QRect) (fuel : Nat) (current : Control) (s : State σ)
    (h : reaches env.GetParent fuel current) :
    ∃ out, GetDropTargetLoop env reg toSearch o p r fuel current s = some out := by
  induction fuel generalizing current s with
  | zero =>
    have h0 : current = 0 := h
    simp [GetDropTargetLoop, h0]
  | succ n ih =>
    by_cases h0 : current = 0
    · simp [GetDropTargetLoop, h0]
    · have hr : reaches env.GetParent n (env.GetParent current) := by
        rcases h with h | h
        · exact absurd h h0
        · exact h
      simp only [GetDropTargetLoop, h0, if_false]
      rcases hl : GetDropTargetFromList env ((GetTargetList reg current).getD []) toSearch o p r s
        with ⟨_ | t, s1⟩
      · exact ih _ s1 hr
      · exact ⟨_, rfl⟩

theorem GetDropTarget_total (env : Env σ) (reg : Registry) (fuel : Nat)
    (hb : HeightBounded env fuel) (c : Control) (o : DraggedObject) (p : QPoint) (r : QRect)
    (s : State σ) :
    ∃ target s1, GetDropTarget env reg fuel c o p r s = some (target, s1) := by
  obtain ⟨⟨t, s1⟩, h⟩ := loop_total env reg c o p r fuel c s (hb c)
  exact ⟨t, s1, h⟩

theorem GetDropTarget_frame (env : Env σ) (reg : Registry) (fuel : Nat) (c : Control)
    (o : DraggedObject) (p : QPoint) (r : QRect) (q : Event → Bool)
    (hq : ∀ l c o p r res, q (Event.Drag l c o p r res) = false)
    (s : State σ) (target : Option DropTarget) (s1 : State σ)
    (h : GetDropTarget env reg fuel c o p r s = some (target, s1)) :
    s1.rectangle = s.rectangle ∧ s1.trace.filter q = s.trace.filter q :=
  loop_frame env reg c o p r q hq fuel c s (target, s1) h

theorem moveFeedback_outcome (self : TrackerMoveListener) (location : QPoint)
    (target : Option DropTarget) (s : State σ) :
    (moveFeedback self location target s).trace.filter Event.isOutcome =
      s.trace.filter Event.isOutcome := by
  unfold moveFeedback
  cases target <;> simp only [] <;> split <;> try split
  all_goals simp [trackerSetCursor, trackerSetRectangle, List.filter_append, Event.isOutcome]

theorem ControlMoved_total (env : Env σ) (reg : Registry) (fuel : Nat)
    (hb : HeightBounded env fuel) (self : TrackerMoveListener) (event : ControlEvent)
    (c : Control) (s : State σ) :
    ∃ s1, ControlMoved env reg fuel self event c s = some s1 := by
  obtain ⟨t, s1, h⟩ := GetDropTarget_total env reg fuel hb c self.draggedItem
    ⟨event.x, event.y⟩ s.rectangle s
  exact ⟨moveFeedback self ⟨event.x, event.y⟩ t s1, by simp only [ControlMoved, h]⟩

theorem ControlMoved_outcome (env : Env σ) (reg : Registry) (fuel : Nat)
    (self : TrackerMoveListener) (event : ControlEvent) (c : Control) (s s1 : State σ)
    (h : ControlMoved env reg fuel self event c s = some s1) :
    s1.trace.filter Event.isOutcome = s.trace.filter Event.isOutcome := by
  unfold ControlMoved at h
  simp only [] at h
  rcases hg : GetDropTarget env reg fuel c self.draggedItem ⟨event.x, event.y⟩ s.rectangle s
    with _ | ⟨t, s2⟩
  · simp [hg] at h
  · simp only [hg, Option.some.injEq] at h
    rw [← h, moveFeedback_outcome]
    exact (GetDropTarget_frame env reg fuel c _ _ _ Event.isOutcome
      (fun _ _ _ _ _ _ => rfl) s t s2 hg).2

theorem trackerOpen_total (env : Env σ) (reg : Registry) (fuel : Nat)
    (hb : HeightBounded env fuel) (listener : TrackerMoveListener) (moves : List MoveStep)
    (s : State σ) : ∃ s1, trackerOpen env reg fuel listener moves s = some s1 := by
  induction moves generalizing s with
  | nil => exact ⟨s, rfl⟩
  | cons m ms ih =>
    obtain ⟨s1, h1⟩ := ControlMoved_total env reg fuel hb listener m.event m.cursorControl
      { s with rectangle := m.rectangle.getD s.rectangle }
    obtain ⟨s2, h2⟩ := ih s1
    exact ⟨s2, by simp only [trackerOpen, h1, h2]⟩

theorem trackerOpen_outcome (env : Env σ) (reg : Registry) (fuel : Nat)
    (listener : TrackerMoveListener) (moves : List MoveStep) (s s1 : State σ)
    (h : trackerOpen env reg fuel listener moves s = some s1) :
    s1.trace.filter Event.isOutcome = s.trace.filter Event.isOutcome := by
  induction moves generalizing s with
  | nil =>
    simp only [trackerOpen, Option.some.injEq] at h
    rw [h]
  | cons m ms ih =>
    simp only [trackerOpen] at h
    rcases hc : ControlMoved env reg fuel listener m.event m.cursorControl
        { s with rectangle := m.rectangle.getD s.rectangle } with _ | s2
    · simp [hc] at h
    · simp only [hc] at h
      rw [ih s2 h, ControlMoved_outcome env reg fuel listener _ _ _ s2 hc]

theorem trackingPhase_total (env : Env σ) (reg : Registry) (fuel : Nat)
    (hb : HeightBounded env fuel) (input : SessionInput) (item : DraggedObject) (sb : QRect)
    (il : QPoint) (snap : Bool) (s : State σ) :
    ∃ s4, trackingPhase env reg fuel input item sb il snap s = some s4 := by
  unfold trackingPhase
  simp only []
  have hinit : ∃ target s1,
      (if input.startControl ≠ 0 ∧ snap = true then
        GetDropTarget env reg fuel input.startControl item il sb
          { s with rectangle := input.trackerRectangle,
                   trace := s.trace ++ [Event.AddControlListener] }
      else some (none, { s with rectangle := input.trackerRectangle,
                                trace := s.trace ++ [Event.AddControlListener] }))
        = some (target, s1) := by
    split
    · exact GetDropTarget_total env reg fuel hb _ _ _ _ _
    · exact ⟨_, _, rfl⟩
  obtain ⟨target, s1, h1⟩ := hinit
  rw [h1]
  exact trackerOpen_total env reg fuel hb _ _ _

theorem trackingPhase_outcome (env : Env σ) (reg : Registry) (fuel : Nat)
    (input : SessionInput) (item : DraggedObject) (sb : QRect) (il : QPoint) (snap : Bool)
    (s s4 : State σ) (h : trackingPhase env reg fuel input item sb il snap s = some s4) :
    s4.trace.filter Event.isOutcome = s.trace.filter Event.isOutcome := by
  unfold trackingPhase at h
  simp only [] at h
  split at h
  · exact absurd h (by simp)
  · rename_i target s1 hinit
    have h1 : s1.trace.filter Event.isOutcome = s.trace.filter Event.isOutcome := by
      split at hinit
      · have := (GetDropTarget_frame env reg fuel _ _ _ _ Event.isOutcome
          (fun _ _ _ _ _ _ => rfl) _ _ _ hinit).2
        simpa [List.filter_append, Event.isOutcome] using this
      · simp only [Option.some.injEq, Prod.mk.injEq] at hinit
        obtain ⟨_, rfl⟩ := hinit
        simp [List.filter_append, Event.isOutcome]
    rw [trackerOpen_outcome env reg fuel _ _ _ _ h]
    cases target <;> simp only [] <;> (repeat' split) <;>
      simp [trackerSetCursor, trackerSetRectangle, List.filter_append, Event.isOutcome, h1]

theorem DragToTarget_total (env : Env σ) (reg : Registry) (forced : Option TestDropLocation)
    (fuel : Nat) (hb : HeightBounded env fuel) (input : SessionInput) (item : DraggedObject)
    (sb : QRect) (il : QPoint) (snap : Bool) (s : State σ) :
    ∃ r s1, DragToTarget env reg forced fuel input item sb il snap s = some (r, s1) := by
  cases forced with
  | some f => exact GetDropTarget_total env reg fuel hb _ _ _ _ _
  | none =>
    obtain ⟨s4, h4⟩ := trackingPhase_total env reg fuel hb input item sb il snap s
    obtain ⟨t, s5, h5⟩ := GetDropTarget_total env reg fuel hb input.targetControl item
      input.finalLocation s4.rectangle s4
    simp only [DragToTarget, h4, h5]
    cases input.trackingOk
    · cases t
      · exact ⟨_, _, rfl⟩
      · exact ⟨_, _, rfl⟩
    · exact ⟨_, _, rfl⟩

theorem DragToTarget_outcome (env : Env σ) (reg : Registry) (forced : Option TestDropLocation)
    (fuel : Nat) (input : SessionInput) (item : DraggedObject) (sb : QRect) (il : QPoint)
    (snap : Bool) (s : State σ) (r : Option DropTarget) (s1 : State σ)
    (h : DragToTarget env reg forced fuel input item sb il snap s = some (r, s1)) :
    (r ≠ none → s1.trace.filter Event.isOutcome = s.trace.filter Event.isOutcome) ∧
    (r = none → ∃ evs, s1.trace.filter Event.isOutcome = s.trace.filter Event.isOutcome ++ evs ∧
        ∀ e ∈ evs, ∃ t, e = Event.DragFinished t false) := by
  cases forced with
  | some f =>
    have := (GetDropTarget_frame env reg fuel _ _ _ _ Event.isOutcome
      (fun _ _ _ _ _ _ => rfl) _ _ _ h).2
    exact ⟨fun _ => this, fun _ => ⟨[], by simpa using this, by simp⟩⟩
  | none =>
    simp only [DragToTarget] at h
    rcases h4 : trackingPhase env reg fuel input item sb il snap s with _ | s4
    · simp [h4] at h
    · simp only [h4] at h
      have f4 := trackingPhase_outcome env reg fuel input item sb il snap s s4 h4
      rcases h5 : GetDropTarget env reg fuel input.targetControl item input.finalLocation
          s4.rectangle s4 with _ | ⟨t, s5⟩
      · simp [h5] at h
      · simp only [h5] at h
        have f5 := (GetDropTarget_frame env reg fuel _ _ _ _ Event.isOutcome
          (fun _ _ _ _ _ _ => rfl) _ _ _ h5).2
        rw [f4] at f5
        cases hok : input.trackingOk
        · simp only [hok, Bool.false_eq_true, if_false] at h
          cases t with
          | none =>
            simp only [Option.some.injEq, Prod.mk.injEq] at h
            obtain ⟨rfl, rfl⟩ := h
            exact ⟨fun _ => f5, fun _ => ⟨[], by simpa using f5, by simp⟩⟩
          | some t =>
            simp only [Option.some.injEq, Prod.mk.injEq] at h
            obtain ⟨rfl, rfl⟩ := h
            refine ⟨fun hne => absurd rfl hne, fun _ => ⟨[Event.DragFinished t false], ?_, ?_⟩⟩
            · simp [callDragFinished, List.filter_append, Event.isOutcome, f5]
            · intro e he
              exact ⟨t, by simpa using he⟩
        · simp only [hok, if_true, Option.some.injEq, Prod.mk.injEq] at h
          obtain ⟨rfl, rfl⟩ := h
          refine ⟨fun _ => f5, fun _ => ⟨[], by simpa using f5, by simp⟩⟩

theorem fromList_accepting (env : Env σ) (ls : List Listener) (l : Listener) (hl : l ∈ ls)
    (c : Control) (o : DraggedObject) (p : QPoint) (r : QRect)
    (hacc : ∀ w, (env.Drag l c o p r w).1 ≠ none) (s : State σ) :
    (GetDropTargetFromList env ls c o p r s).1 ≠ none := by
  induction ls generalizing s with
  | nil => simp at hl
  | cons x xs ih =>
    rcases h : env.Drag x c o p r s.world with ⟨_ | t, w⟩
    · have hx : x ≠ l := by
        intro hxl
        subst hxl
        exact hacc s.world (by rw [h])
      have hl2 : l ∈ xs := by
        rcases List.mem_cons.mp hl with h1 | h1
        · exact absurd h1.symm hx
        · exact h1
      simp only [GetDropTargetFromList, callDrag, h]
      exact ih hl2 _
    · simp [GetDropTargetFromList, callDrag, h]

theorem demoEnv_bounded : HeightBounded demoEnv 3 := by
  intro c
  simp only [reaches, demoEnv, demoParent]
  by_cases h3 : c = 3
  · simp [h3]
  · by_cases h2 : c = 2
    · simp [h2]
    · simp [h3, h2]

theorem AddDragTarget_data (reg : Registry) (control : Control) (target : Listener)
    (hc : control ≠ 0) (w : Control) :
    (AddDragTarget reg control target).data w =
      if w = control then some ((reg.data control).getD [] ++ [target]) else reg.data w := by
  unfold AddDragTarget GetTargetList
  rw [if_neg hc]
  by_cases hw : w = control
  · subst hw
    cases h : reg.data w <;> simp
  · cases h : reg.data control <;> simp [Function.update_noteq hw, hw]

theorem RemoveDragTarget_data (reg : Registry) (control : Control) (target : Listener)
    (hc : control ≠ 0) (w : Control) :
    (RemoveDragTarget reg control target).data w =
      if w = control then
        match reg.data control with
        | none => none
        | some l =>
          match l.filter (fun x => x ≠ target) with
          | [] => none
          | y :: ys => some (y :: ys)
      else reg.data w := by
  unfold RemoveDragTarget GetTargetList
  rw [if_neg hc]
  cases h : reg.data control with
  | none =>
    by_cases hw : w = control
    · subst hw; simp [h]
    · simp [hw]
  | some l =>
    simp only []
    cases hrem : List.filter (fun x => decide (x ≠ target)) l with
    | nil =>
      by_cases hw : w = control
      · subst hw; simp [List.isEmpty]
      · simp [List.isEmpty, Function.update_noteq hw, hw]
    | cons y ys =>
      by_cases hw : w = control
      · subst hw; simp [List.isEmpty]
      · simp [List.isEmpty, Function.update_noteq hw, hw]

theorem AddDragTarget_inv (reg : Registry) (control : Control) (target : Listener)
    (h : ∀ w, reg.data w ≠ some []) (w : Control) :
    (AddDragTarget reg control target).data w ≠ some [] := by
  by_cases hc : control = 0
  · simpa [AddDragTarget, hc] using h w
  · rw [AddDragTarget_data reg control target hc]
    split
    · simp
    · exact h w

theorem RemoveDragTarget_inv (reg : Registry) (control : Control) (target : Listener)
    (h : ∀ w, reg.data w ≠ some []) (w : Control) :
    (RemoveDragTarget reg control target).data w ≠ some [] := by
  by_cases hc : control = 0
  · simpa [RemoveDragTarget, hc] using h w
  · rw [RemoveDragTarget_data reg control target hc]
    split
    · split
      · simp
      · split <;> simp
    · exact h w

theorem RemoveDragTarget_inv_at (reg : Registry) (control : Control) (target : Listener)
    (hc : control ≠ 0) : (RemoveDragTarget reg control target).data control ≠ some [] := by
  rw [RemoveDragTarget_data reg control target hc]
  simp only [if_true]
  split
  · simp
  · split <;> simp

theorem applyOps_inv (ops : List RegistryOp) (reg : Registry)
    (h : ∀ w, reg.data w ≠ some []) (w : Control) :
    (applyOps reg ops).data w ≠ some [] := by
  induction ops generalizing reg with
  | nil => exact h w
  | cons op ops ih =>
    simp only [applyOps, List.foldl_cons]
    apply ih
    intro v
    cases op with
    | add c t => exact AddDragTarget_inv reg c t h v
    | remove c t => exact RemoveDragTarget_inv reg c t h v

/-- C2: the list overload of `GetDropTarget` queries the listeners in list order
and stops at the first one whose `Drag` returns a drop target: either the list
splits as `pre ++ l :: post`, the result is what `l` returned, and the calls made
are exactly those on `pre` (each returning null) followed by the one on `l`
(none on `post`); or the result is null and every listener of the list was
called and returned null. For listeners whose answer does not depend on the
world the result is the first non-null answer in list order, and it is null
exactly when every listener answers null; the empty list gives null. -/
theorem GetDropTargetFromList_first_match (env : Env σ) (ls : List Listener) (c : Control)
    (o : DraggedObject) (p : QPoint) (r : QRect) (s : State σ) :
    ((∃ pre l post t, ls = pre ++ l :: post ∧
        (GetDropTargetFromList env ls c o p r s).1 = some t ∧
        (GetDropTargetFromList env ls c o p r s).2.trace =
          s.trace ++ pre.map (fun x => Event.Drag x c o p r none)
            ++ [Event.Drag l c o p r (some t)]) ∨
      ((GetDropTargetFromList env ls c o p r s).1 = none ∧
        (GetDropTargetFromList env ls c o p r s).2.trace =
          s.trace ++ ls.map (fun x => Event.Drag x c o p r none))) ∧
    (∀ d : Listener → Option DropTarget, (∀ l w, (env.Drag l c o p r w).1 = d l) →
        (GetDropTargetFromList env ls c o p r s).1 = ls.findSome? d ∧
        ((GetDropTargetFromList env ls c o p r s).1 = none ↔ ∀ l ∈ ls, d l = none)) ∧
    GetDropTargetFromList env [] c o p r s = (none, s) := by
  refine ⟨fromList_calls env ls c o p r s, ?_, rfl⟩
  intro d hd
  have h := fromList_findSome env ls c o p r d hd s
  exact ⟨h, by rw [h, List.findSome?_eq_none_iff]⟩

/-- C1: when the non-null ancestors of `toSearch` (itself first, then parent,
grandparent, up to the root) are `chain` and the fuel covers them, the widget
overload of `GetDropTarget` returns, and its result and calls are those of one
first-match query over the ancestors' target lists concatenated nearest first,
followed by `defaultTargets`. Hence the nearest ancestor whose list yields a
match decides and nothing is queried after it, `defaultTargets` is queried only
when no ancestor's list yields a match, and for the null widget the result is
exactly the query of `defaultTargets`. -/
theorem GetDropTarget_nearest_ancestor_first (env : Env σ) (reg : Registry)
    (chain : List Control) (fuel : Nat) (toSearch : Control) (o : DraggedObject)
    (p : QPoint) (r : QRect) (s : State σ)
    (hc : ParentChain env.GetParent toSearch chain) (hf : chain.length ≤ fuel) :
    GetDropTarget env reg fuel toSearch o p r s =
        some (GetDropTargetFromList env (chain.flatMap (targetsAt reg) ++ reg.defaultTargets)
          toSearch o p r s) ∧
    (∀ pre a post s1 t s2, chain = pre ++ a :: post →
        GetDropTargetFromList env (pre.flatMap (targetsAt reg)) toSearch o p r s = (none, s1) →
        GetDropTargetFromList env (targetsAt reg a) toSearch o p r s1 = (some t, s2) →
        GetDropTarget env reg fuel toSearch o p r s = some (some t, s2)) ∧
    (∀ t s1,
        GetDropTargetFromList env (chain.flatMap (targetsAt reg)) toSearch o p r s
          = (some t, s1) →
        GetDropTarget env reg fuel toSearch o p r s = some (some t, s1)) ∧
    (∀ s1,
        GetDropTargetFromList env (chain.flatMap (targetsAt reg)) toSearch o p r s
          = (none, s1) →
        GetDropTarget env reg fuel toSearch o p r s =
          some (GetDropTargetFromList env reg.defaultTargets toSearch o p r s1)) ∧
    GetDropTarget env reg fuel 0 o p r s =
        some (GetDropTargetFromList env reg.defaultTargets 0 o p r s) := by
  have hmain := loop_flatten env reg toSearch o p r chain fuel toSearch s hc hf
  refine ⟨hmain, ?_, ?_, ?_, ?_⟩
  · intro pre a post s1 t s2 hsplit hpre ha
    unfold GetDropTarget
    rw [hmain, hsplit]
    simp only [List.flatMap_append, List.flatMap_cons, List.append_assoc]
    rw [fromList_append, hpre]
    simp only
    rw [fromList_append, ha]
  · intro t s1 h
    unfold GetDropTarget
    rw [hmain, fromList_append, h]
  · intro s1 h
    unfold GetDropTarget
    rw [hmain, fromList_append, h]
  · unfold GetDropTarget
    cases fuel <;> simp [GetDropTargetLoop]

/-- Witness for C1 on the three-level hierarchy 3 → 2 → 1: the chain of widget 3
is `[3, 2, 1]` and three units of fuel cover it. -/
theorem GetDropTarget_nearest_ancestor_first_witness :
    ParentChain demoEnv.GetParent 3 [3, 2, 1] ∧ [3, 2, 1].length ≤ 3 ∧
    GetDropTarget demoEnv demoRegistry 3 3 7 ⟨4, 5⟩ QRect.null demoState =
      some (GetDropTargetFromList demoEnv
        ([3, 2, 1].flatMap (targetsAt demoRegistry) ++ demoRegistry.defaultTargets)
        3 7 ⟨4, 5⟩ QRect.null demoState) ∧
    (GetDropTarget demoEnv demoRegistry 3 3 7 ⟨4, 5⟩ QRect.null demoState).map
      (fun out => (out.1, out.2.trace)) =
      some (some demoTarget,
        [Event.Drag 10 3 7 ⟨4, 5⟩ QRect.null none,
         Event.Drag 11 3 7 ⟨4, 5⟩ QRect.null (some demoTarget)]) :=
  ⟨by decide, by decide,
    (GetDropTarget_nearest_ancestor_first demoEnv demoRegistry [3, 2, 1] 3 3 7 ⟨4, 5⟩
      QRect.null demoState (by decide) (by decide)).1,
    by decide⟩

/-- C3: in a hierarchy the fuel covers, `DragToTarget` and `PerformDrag` return,
and `PerformDrag` returns true exactly when `DragToTarget` returned a non-null
target. In that case `DragToTarget` itself called neither `Drop` nor
`DragFinished`, and `PerformDrag` then called `Drop()` on the target once and
`DragFinished(true)` once, in that order. When it returns false the only
outcome calls of the session are `DragFinished(false)` ones: no `Drop`, no
`DragFinished(true)`. In particular, without a forced location, a normal
release whose final resolution yields a target commits that target and
returns true. -/
theorem PerformDrag_true_iff_target (env : Env σ) (reg : Registry)
    (forced : Option TestDropLocation) (fuel : Nat) (input : SessionInput)
    (item : DraggedObject) (sb : QRect) (il : QPoint) (snap : Bool) (s : State σ)
    (hb : HeightBounded env fuel) :
    ∃ r s1 s2,
      DragToTarget env reg forced fuel input item sb il snap s = some (r, s1) ∧
      PerformDrag env reg forced fuel input item sb il snap s = some (r.isSome, s2) ∧
      (∀ t, r = some t →
        s2 = callDragFinished env t true (callDrop env t s1) ∧
        s2.trace = s1.trace ++ [Event.Drop t, Event.DragFinished t true] ∧
        s2.trace.filter Event.isOutcome =
          s.trace.filter Event.isOutcome ++ [Event.Drop t, Event.DragFinished t true]) ∧
      (r = none → s2 = s1 ∧
        ∃ evs, s2.trace.filter Event.isOutcome = s.trace.filter Event.isOutcome ++ evs ∧
          ∀ e ∈ evs, ∃ t, e = Event.DragFinished t false) ∧
      (∀ s4 t s5, forced = none → input.trackingOk = true →
        trackingPhase env reg fuel input item sb il snap s = some s4 →
        GetDropTarget env reg fuel input.targetControl item input.finalLocation
          s4.rectangle s4 = some (some t, s5) →
        PerformDrag env reg forced fuel input item sb il snap s =
          some (true, callDragFinished env t true (callDrop env t s5))) := by
  obtain ⟨r, s1, hd⟩ := DragToTarget_total env reg forced fuel hb input item sb il snap s
  have ho := DragToTarget_outcome env reg forced fuel input item sb il snap s r s1 hd
  have hlast : ∀ s4 t s5, forced = none → input.trackingOk = true →
      trackingPhase env reg fuel input item sb il snap s = some s4 →
      GetDropTarget env reg fuel input.targetControl item input.finalLocation
        s4.rectangle s4 = some (some t, s5) →
      PerformDrag env reg forced fuel input item sb il snap s =
        some (true, callDragFinished env t true (callDrop env t s5)) := by
    intro s4 t s5 hf hok h4 h5
    subst hf
    simp only [PerformDrag, DragToTarget, h4, h5, hok, if_true]
  cases r with
  | none =>
    refine ⟨none, s1, s1, hd, by simp only [PerformDrag, hd, Option.isSome], ?_, ?_, hlast⟩
    · intro t ht
      exact absurd ht (by simp)
    · intro _
      exact ⟨rfl, ho.2 rfl⟩
  | some t =>
    refine ⟨some t, s1, callDragFinished env t true (callDrop env t s1), hd,
      by simp only [PerformDrag, hd, Option.isSome], ?_, ?_, hlast⟩
    · intro t2 ht
      simp only [Option.some.injEq] at ht
      subst ht
      refine ⟨rfl, by simp [callDragFinished, callDrop], ?_⟩
      simp [callDragFinished, callDrop, List.filter_append, Event.isOutcome,
        ho.1 (by simp)]
    · intro h
      exact absurd h (by simp)

/-- Witness for C3: the release session over widget 3 in the three-level
hierarchy, whose depth three units of fuel cover. -/
theorem PerformDrag_true_iff_target_witness :
    HeightBounded demoEnv 3 ∧
    (∃ r s1 s2,
      DragToTarget demoEnv demoRegistry none 3 releaseInput 7 (QRect.ofXYWH 0 0 100 50)
        ⟨1, 1⟩ true demoState = some (r, s1) ∧
      PerformDrag demoEnv demoRegistry none 3 releaseInput 7 (QRect.ofXYWH 0 0 100 50)
        ⟨1, 1⟩ true demoState = some (r.isSome, s2)) ∧
    (PerformDrag demoEnv demoRegistry none 3 releaseInput 7 (QRect.ofXYWH 0 0 100 50)
        ⟨1, 1⟩ true demoState).map (fun out => (out.1, out.2.trace.filter Event.isOutcome)) =
      some (true, [Event.Drop demoTarget, Event.DragFinished demoTarget true]) :=
  ⟨demoEnv_bounded,
    (PerformDrag_true_iff_target demoEnv demoRegistry none 3 releaseInput 7
      (QRect.ofXYWH 0 0 100 50) ⟨1, 1⟩ true demoState demoEnv_bounded).imp
      fun _ h => h.imp fun _ h => h.imp fun _ h => ⟨h.1, h.2.1⟩,
    by decide⟩

/-- C4 as amended: without a forced location, in a hierarchy the fuel covers,
when the user cancels tracking, `PerformDrag` returns false, `Drop` is never
called, and `DragFinished(false)` is called exactly once, on the target of the
final resolution (the one made after tracking, at the final cursor location,
against the tracker's final rectangle), when that resolution yields a target;
when it yields none, no `DragFinished` call is made at all. -/
theorem PerformDrag_cancelled (env : Env σ) (reg : Registry) (fuel : Nat)
    (input : SessionInput) (item : DraggedObject) (sb : QRect) (il : QPoint) (snap : Bool)
    (s : State σ) (hb : HeightBounded env fuel) (hcancel : input.trackingOk = false) :
    ∃ s4 r s5 s6,
      trackingPhase env reg fuel input item sb il snap s = some s4 ∧
      GetDropTarget env reg fuel input.targetControl item input.finalLocation
        s4.rectangle s4 = some (r, s5) ∧
      PerformDrag env reg none fuel input item sb il snap s = some (false, s6) ∧
      s6.trace.filter Event.isOutcome =
        s.trace.filter Event.isOutcome ++
          r.toList.map (fun t => Event.DragFinished t false) := by
  obtain ⟨s4, h4⟩ := trackingPhase_total env reg fuel hb input item sb il snap s
  obtain ⟨r, s5, h5⟩ := GetDropTarget_total env reg fuel hb input.targetControl item
    input.finalLocation s4.rectangle s4
  have f4 := trackingPhase_outcome env reg fuel input item sb il snap s s4 h4
  have f5 := (GetDropTarget_frame env reg fuel _ _ _ _ Event.isOutcome
    (fun _ _ _ _ _ _ => rfl) _ _ _ h5).2
  rw [f4] at f5
  cases r with
  | none =>
    refine ⟨s4, none, s5, s5, h4, h5, ?_, by simpa using f5⟩
    simp only [PerformDrag, DragToTarget, h4, h5, hcancel, Bool.false_eq_true, if_false]
  | some t =>
    refine ⟨s4, some t, s5, callDragFinished env t false s5, h4, h5, ?_, ?_⟩
    · simp only [PerformDrag, DragToTarget, h4, h5, hcancel, Bool.false_eq_true, if_false]
    · simp [callDragFinished, List.filter_append, Event.isOutcome, f5]

/-- Witness for C4 as amended: the session cancelled while over widget 3. -/
theorem PerformDrag_cancelled_witness :
    HeightBounded demoEnv 3 ∧ cancelInput.trackingOk = false ∧
    (∃ s6, PerformDrag demoEnv demoRegistry none 3 cancelInput 7 (QRect.ofXYWH 0 0 100 50)
        ⟨1, 1⟩ true demoState = some (false, s6)) ∧
    (PerformDrag demoEnv demoRegistry none 3 cancelInput 7 (QRect.ofXYWH 0 0 100 50)
        ⟨1, 1⟩ true demoState).map (fun out => (out.1, out.2.trace.filter Event.isOutcome)) =
      some (false, [Event.DragFinished demoTarget false]) :=
  ⟨demoEnv_bounded, rfl,
    match PerformDrag_cancelled demoEnv demoRegistry 3 cancelInput 7
      (QRect.ofXYWH 0 0 100 50) ⟨1, 1⟩ true demoState demoEnv_bounded rfl with
    | ⟨_, _, _, s6, _, _, h, _⟩ => ⟨s6, h⟩,
    by decide⟩

/-- C5: with a forced drop location `f`, `DragToTarget` is exactly the
resolution at the control found at the forced location, with the source bounds
as drag rectangle; in a hierarchy the fuel covers it returns, leaving the
tracker's rectangle untouched and making no tracker call; and when the control
found is non-null and its target list holds a listener accepting every payload
at the forced location, `PerformDrag` returns true. -/
theorem DragToTarget_forced_location (env : Env σ) (reg : Registry) (f : TestDropLocation)
    (fuel : Nat) (input : SessionInput) (item : DraggedObject) (sb : QRect) (il : QPoint)
    (snap : Bool) (s : State σ) (hb : HeightBounded env fuel) :
    DragToTarget env reg (some f) fuel input item sb il snap s =
        GetDropTarget env reg fuel (env.FindControl f.shells f.location) item f.location sb s ∧
    (∃ r s1, DragToTarget env reg (some f) fuel input item sb il snap s = some (r, s1) ∧
        s1.rectangle = s.rectangle ∧
        s1.trace.filter Event.isTrackerCall = s.trace.filter Event.isTrackerCall) ∧
    (∀ l ls, env.FindControl f.shells f.location ≠ 0 →
        GetTargetList reg (env.FindControl f.shells f.location) = some ls → l ∈ ls →
        (∀ c o r w, (env.Drag l c o f.location r w).1 ≠ none) →
        ∃ s2, PerformDrag env reg (some f) fuel input item sb il snap s = some (true, s2)) := by
  refine ⟨rfl, ?_, ?_⟩
  · obtain ⟨r, s1, h⟩ := DragToTarget_total env reg (some f) fuel hb input item sb il snap s
    have hf := GetDropTarget_frame env reg fuel _ _ _ _ Event.isTrackerCall
      (fun _ _ _ _ _ _ => rfl) _ _ _ h
    exact ⟨r, s1, h, hf.1, hf.2⟩
  · intro l ls hne hls hl hacc
    obtain ⟨r, s1, h⟩ := DragToTarget_total env reg (some f) fuel hb input item sb il snap s
    have hr : r ≠ none := by
      have hacc2 := fromList_accepting env ls l hl (env.FindControl f.shells f.location) item
        f.location sb (fun w => hacc _ _ _ w) s
      have h2 : GetDropTargetLoop env reg (env.FindControl f.shells f.location) item
          f.location sb fuel (env.FindControl f.shells f.location) s = some (r, s1) := h
      cases fuel with
      | zero => simp [GetDropTargetLoop, hne] at h2
      | succ n =>
        simp only [GetDropTargetLoop, hne, if_false, hls, Option.getD_some] at h2
        rcases hq : GetDropTargetFromList env ls (env.FindControl f.shells f.location) item
            f.location sb s with ⟨_ | t, s3⟩
        · rw [hq] at hacc2
          exact absurd rfl hacc2
        · rw [hq] at h2
          simp only [Option.some.injEq, Prod.mk.injEq] at h2
          rw [← h2.1]
          simp
    cases r with
    | none => exact absurd rfl hr
    | some t =>
      exact ⟨callDragFinished env t true (callDrop env t s1), by simp only [PerformDrag, h]⟩

/-- Witness for C5: a forced location over widget 3 in the three-level
hierarchy; listener 11 on widget 3 accepts everything, so the drag commits. -/
theorem DragToTarget_forced_location_witness :
    HeightBounded demoEnv 3 ∧
    (∃ s2, PerformDrag demoEnv demoRegistry (some demoForced) 3 releaseInput 7
        (QRect.ofXYWH 0 0 100 50) ⟨1, 1⟩ true demoState = some (true, s2)) ∧
    (PerformDrag demoEnv demoRegistry (some demoForced) 3 releaseInput 7
        (QRect.ofXYWH 0 0 100 50) ⟨1, 1⟩ true demoState).map
      (fun out => (out.1, out.2.trace.filter (fun e => !e.isDrag))) =
      some (true, [Event.Drop demoTarget, Event.DragFinished demoTarget true]) :=
  ⟨demoEnv_bounded,
    (DragToTarget_forced_location demoEnv demoRegistry demoForced 3 releaseInput 7
      (QRect.ofXYWH 0 0 100 50) ⟨1, 1⟩ true demoState demoEnv_bounded).2.2 11 [10, 11]
      (by decide) (by decide) (by decide)
      (fun _ _ _ _ => by simp [demoEnv]),
    by decide⟩

/-- Counterexample to C4 as stated: in this session a move over widget 3
resolves the target of listener 11, then the cursor leaves every widget and the
user cancels; the final resolution finds no target, `PerformDrag` returns false
and `DragFinished` is not called at all on the target resolved earlier. -/
theorem cancel_after_resolution_counterexample :
    cancelAwayInput.trackingOk = false ∧
    (PerformDrag demoEnv cancelRegistry none 3 cancelAwayInput 7 (QRect.ofXYWH 0 0 100 50)
        ⟨1, 1⟩ true demoState).map
      (fun out => (out.1,
        decide (Event.Drag 11 3 7 ⟨4, 5⟩ (QRect.ofXYWH 10 20 30 40) (some demoTarget)
          ∈ out.2.trace),
        out.2.trace.filter Event.isOutcome)) = some (false, true, []) := by
  decide

/-- C7, the code at a zero-size snap rectangle: with snapping enabled and a
resolved target whose snap rectangle has width and height 0, `ControlMoved`
sets the tracker to that snap rectangle itself; the fallback test only covers
negative extents, so the preview is not the translated source rectangle. -/
theorem ControlMoved_zero_size_snap_kept :
    (QRect.ofXYWH 5 5 0 0).width = 0 ∧ (QRect.ofXYWH 5 5 0 0).height = 0 ∧
    (GetDropTarget demoEnv zeroSnapRegistry 3 3 7 ⟨40, 50⟩ demoState.rectangle demoState).map
      (fun out => out.1) = some (some ⟨15, QRect.ofXYWH 5 5 0 0, 2⟩) ∧
    snapFallback demoListener ⟨40, 50⟩ (QRect.ofXYWH 5 5 0 0) = QRect.ofXYWH 5 5 0 0 ∧
    (ControlMoved demoEnv zeroSnapRegistry 3 demoListener ⟨40, 50⟩ 3 demoState).map
      (fun out => (out.rectangle, out.trace.filter Event.isSetRectangle)) =
        some (QRect.ofXYWH 5 5 0 0, [Event.SetRectangle (QRect.ofXYWH 5 5 0 0)]) ∧
    translatedSource demoListener ⟨40, 50⟩ = QRect.ofXYWH 39 49 100 50 ∧
    QRect.ofXYWH 5 5 0 0 ≠ translatedSource demoListener ⟨40, 50⟩ := by
  decide

/-- C8, the code when no target is resolved: the cursor is set to
`CURSOR_INVALID`, but with snapping enabled the preview stays the
default-constructed rectangle (width 0 does not pass the fallback test) and
the tracker is set to it, not to the translated source rectangle. -/
theorem ControlMoved_no_target_null_rectangle :
    (GetDropTarget demoEnv cancelRegistry 3 0 7 ⟨40, 50⟩ demoState.rectangle demoState).map
      (fun out => out.1) = some none ∧
    snapFallback demoListener ⟨40, 50⟩ (snapTargetOf none) = QRect.null ∧
    (ControlMoved demoEnv cancelRegistry 3 demoListener ⟨40, 50⟩ 0 demoState).map
      (fun out => (out.rectangle, out.trace.filter Event.isTrackerCall)) =
        some (QRect.null, [Event.SetCursor CURSOR_INVALID, Event.SetRectangle QRect.null]) ∧
    QRect.null ≠ translatedSource demoListener ⟨40, 50⟩ := by
  decide

/-- C6: in every registry reached from the empty one by `AddDragTarget` and
`RemoveDragTarget` calls no widget holds an empty target list; `AddDragTarget`
on a non-null widget leaves it the previous list (a fresh one when none was
attached) with the listener appended; after `RemoveDragTarget` on a non-null
widget its list is never empty, the data being reset to null whenever the
removal empties the list. -/
theorem registry_no_empty_list (ops : List RegistryOp) (reg : Registry) (c : Control)
    (t : Listener) :
    (∀ w, (applyOps emptyRegistry ops).data w ≠ some []) ∧
    (AddDragTarget reg (c + 1) t).data (c + 1) = some ((reg.data (c + 1)).getD [] ++ [t]) ∧
    (RemoveDragTarget reg (c + 1) t).data (c + 1) ≠ some [] ∧
    (∀ l, reg.data (c + 1) = some l → l.filter (fun x => x ≠ t) = [] →
        (RemoveDragTarget reg (c + 1) t).data (c + 1) = none) := by
  refine ⟨fun w => applyOps_inv ops emptyRegistry (by simp [emptyRegistry]) w, ?_, ?_, ?_⟩
  · rw [AddDragTarget_data reg (c + 1) t (Nat.succ_ne_zero c)]
    simp
  · exact RemoveDragTarget_inv_at reg (c + 1) t (Nat.succ_ne_zero c)
  · intro l hl hnil
    rw [RemoveDragTarget_data reg (c + 1) t (Nat.succ_ne_zero c)]
    simp only [if_true, hl, hnil]

end DragUtil

end berry

namespace mitk

namespace ContourModelUtils

/-- C10: for an original slice and a (cast) filled-contour slice with the same
number of pixels, `ItkCopyFilledContourToSlice` returns; the filled-contour
slice is unchanged, the original slice keeps its size, and each of its pixels
is the converted overwrite value where the corresponding filled-contour pixel
is non-zero and its previous value where that pixel is zero. -/
theorem ItkCopyFilledContourToSlice_pixels {P : Type} [DecidableEq P] [Zero P]
    (conv : Int → P) (original filled : List P) (overwritevalue : Int)
    (hlen : original.length = filled.length) :
    ∃ out, ItkCopyFilledContourToSlice conv original filled overwritevalue
        = some (out, filled) ∧
      out.length = original.length ∧
      ∀ (i : Nat) (o f : P), original[i]? = some o → filled[i]? = some f →
        out[i]? = some (if f ≠ 0 then conv overwritevalue else o) := by
  induction original generalizing filled with
  | nil =>
    cases filled with
    | nil => exact ⟨[], rfl, rfl, by simp⟩
    | cons f fs => simp at hlen
  | cons o os ih =>
    cases filled with
    | nil => simp at hlen
    | cons f fs =>
      have hl : os.length = fs.length := by simpa using hlen
      obtain ⟨out, hout, hlen2, hpix⟩ := ih fs hl
      refine ⟨(if f ≠ 0 then conv overwritevalue else o) :: out, ?_, by simp [hlen2], ?_⟩
      · simp only [ItkCopyFilledContourToSlice, hout]
      · intro i o2 f2 ho hf
        cases i with
        | zero =>
          simp only [List.getElem?_cons_zero, Option.some.injEq] at ho hf
          subst ho hf
          simp
        | succ n =>
          simp only [List.getElem?_cons_succ] at ho hf ⊢
          exact hpix n o2 f2 ho hf

/-- Witness for C10: three `unsigned char` pixels, overwrite value 257 (which
converts to 1). -/
theorem ItkCopyFilledContourToSlice_pixels_witness :
    [5, 6, 7].length = [0, 1, 255].length ∧
    (∃ out, ItkCopyFilledContourToSlice toUnsignedChar [5, 6, 7] [0, 1, 255] 257
        = some (out, [0, 1, 255]) ∧ out.length = 3) ∧
    ItkCopyFilledContourToSlice toUnsignedChar [5, 6, 7] [0, 1, 255] 257
        = some ([5, 1, 1], [0, 1, 255]) :=
  ⟨rfl,
    match ItkCopyFilledContourToSlice_pixels toUnsignedChar [5, 6, 7] [0, 1, 255] 257 rfl with
    | ⟨out, h, hl, _⟩ => ⟨out, h, hl⟩,
    by decide⟩

end ContourModelUtils

end mitk
